import Mathlib

/-!
Shallow embedding of the pyecsca formula engine (`src/pyecsca/ec/formula.py`)
and the scope backend selector (`src/pyecsca/sca/scope/__init__.py`).

Python dicts are embedded as insertion-ordered association lists, Python
exceptions as an `Err` sum returned through `Except`, and the ambient tracing
context as an explicit `active : Bool` flag (the source tests
`isinstance(getcontext(), NullContext)`; `active = false` is the null context).
Machine integers do not occur; all arithmetic is over `Nat`/`Int` with explicit
reduction modulo the field size.
-/

deriving instance DecidableEq for Except

namespace PyEcsca

/-- A field element, embedding the external `Mod` class contracted in the spec
(§3): an integer value `x` paired with a modulus `n`.  The source accesses
`value.n` to compare moduli. -/
structure Mod where
  x : Nat
  n : Nat
deriving DecidableEq

/-- Operator tags of a parsed operation (`OpType` in `op.py`, an external
contract): add, subtract, multiply, divide, invert, power, square; a bare
copy has no operator (`Option.none` below). -/
inductive OpType where
  | Add
  | Sub
  | Mult
  | Div
  | Inv
  | Pow
  | Sqr
deriving DecidableEq

/-- A named coordinate system (external contract, §3): a name and the set of
coordinate-variable names.  The source attribute is called `variables`, a
reserved word here, hence `vars`. -/
structure CoordinateModel where
  name : String
  vars : List String
deriving DecidableEq

/-- A point: a coordinate-model-tagged collection of named coordinates
(external contract, §3).  `coords` is the insertion-ordered dict of the
source. -/
structure Point where
  coordinate_model : CoordinateModel
  coords : List (String × Mod)
deriving DecidableEq

/-- The working parameter binding of `Formula.__call__`: the Python `params`
dict, embedded as an insertion-ordered association list. -/
abbrev Params := List (String × Mod)

/-- Dict lookup: first entry with the given key. -/
def lookupA {α : Type} : List (String × α) → String → Option α
  | [], _ => Option.none
  | (k, v) :: rest, key => if k = key then some v else lookupA rest key

/-- Dict assignment `d[key] = v`: replace in place if the key exists, else
append (Python dicts keep insertion order). -/
def updateA {α : Type} : List (String × α) → String → α → List (String × α)
  | [], key, v => [(key, v)]
  | (k, w) :: rest, key, v =>
    if k = key then (k, v) :: rest else (k, w) :: updateA rest key v

/-- Auxiliary for `dedupList`: drop names already seen. -/
def dedupAux : List String → List String → List String
  | [], _ => []
  | x :: xs, seen =>
    if x ∈ seen then dedupAux xs seen else x :: dedupAux xs (x :: seen)

/-- The distinct names of a list, first occurrence kept.  Embeds the Python
set `{*op.variables, *op.parameters}`; Python set iteration order is
unspecified in the source, so one concrete order is fixed here (none of the
verified properties depends on it). -/
def dedupList (l : List String) : List String :=
  dedupAux l []

/-- A raw numeric result of evaluating one operation, before the coercion in
`Formula.__call__`: a field element, a Python int, or a float (the latter only
to trigger the strict guard). -/
inductive Value where
  | mod (m : Mod)
  | int (i : Int)
  | float
deriving DecidableEq

/-- A parsed operation (`CodeOp` in `op.py`, an external contract per §3): one
assignment `result = expression` with an operator tag, the referenced
variable and parameter names, and — modelled from the spec: "callable with a
binding of names to field elements to produce a raw numeric result" — an
evaluation function. -/
structure CodeOp where
  result : String
  operator : Option OpType
  vars : List String
  parameters : List String
  run : Params → Value

/-- Symbolic expression tree for assumptions, embedding the Python AST stored
in `Formula.assumptions` and the sympy expressions derived from it. -/
inductive Expr where
  | lit (n : Int)
  | var (s : String)
  | add (a b : Expr)
  | sub (a b : Expr)
  | mul (a b : Expr)
  | div (a b : Expr)
  | pow (a b : Expr)
  | neg (a : Expr)
deriving DecidableEq

/-- One assumption `lhs == rhs` of a formula. -/
structure Assumption where
  lhs : Expr
  rhs : Expr
deriving DecidableEq

/-- All variable names occurring in an expression (with repetitions). -/
def varsOf : Expr → List String
  | .lit _ => []
  | .var s => [s]
  | .add a b => varsOf a ++ varsOf b
  | .sub a b => varsOf a ++ varsOf b
  | .mul a b => varsOf a ++ varsOf b
  | .div a b => varsOf a ++ varsOf b
  | .pow a b => varsOf a ++ varsOf b
  | .neg a => varsOf a

/-- The free symbols of an expression, as a deduplicated list (sympy
`free_symbols` is a set). -/
def freeVars (e : Expr) : List String :=
  dedupList (varsOf e)

/-- The free symbols remaining after substituting every binding of `params`
into `e` (the `expr.subs` loop of `__validate_assumptions`). -/
def freeSymsIn (params : Params) (e : Expr) : List String :=
  (freeVars e).filter (fun s => (lookupA params s).isNone)

/-- Multiplicative inverse modulo `p` by exhaustive search, used to embed
field division `k(a) / k(b)` of sympy's `FF(field)` (external; spec §4.3:
rational literals resolve to "(field-inverse of the denominator) ×
numerator"). -/
def modInv (p x : Nat) : Option Nat :=
  (List.range p).find? (fun y => (x * y) % p = 1 % p)

/-- A literal nonnegative exponent, the only exponent form the EFD grammar
produces (`^` on integers). -/
def exponentOf : Expr → Option Nat
  | .lit n => if 0 ≤ n then some n.toNat else Option.none
  | _ => Option.none

/-- Evaluation of an expression over the finite field of size `p`, under a
partial environment.  Embeds evaluation of the sympy expression built by
`__validate_assumptions` over `FF(field)`; every intermediate is reduced
modulo `p`. -/
def evalF (p : Nat) (σ : String → Option Nat) : Expr → Option Nat
  | .lit n => some ((n % (p : Int)).toNat)
  | .var s => σ s
  | .add a b =>
    match evalF p σ a, evalF p σ b with
    | some x, some y => some ((x + y) % p)
    | _, _ => Option.none
  | .sub a b =>
    match evalF p σ a, evalF p σ b with
    | some x, some y => some ((x % p + (p - y % p)) % p)
    | _, _ => Option.none
  | .mul a b =>
    match evalF p σ a, evalF p σ b with
    | some x, some y => some ((x * y) % p)
    | _, _ => Option.none
  | .div a b =>
    match evalF p σ a, evalF p σ b with
    | some x, some y =>
      match modInv p y with
      | some iy => some ((x * iy) % p)
      | Option.none => Option.none
    | _, _ => Option.none
  | .pow a b =>
    match evalF p σ a, exponentOf b with
    | some x, some k => some ((x ^ k) % p)
    | _, _ => Option.none
  | .neg a =>
    match evalF p σ a with
    | some x => some ((p - x % p) % p)
    | Option.none => Option.none

/-- The roots, over the field of size `p`, of the univariate polynomial
obtained from `e` by substituting all bindings of `params` and leaving `s`
free: every residue at which the expression evaluates to zero, in increasing
order.  Embeds `Poly(expr, symbols(param), domain=k).ground_roots()`; the
source iterates the resulting dict in an unspecified order and binds the
first root, so the increasing order here is one concrete choice. -/
def groundRootsOf (p : Nat) (params : Params) (e : Expr) (s : String) : List Nat :=
  (List.range p).filter
    (fun x =>
      evalF p (fun nm => if nm = s then some x else (lookupA params nm).map (fun m => m.x % p)) e
        == some 0)

/-- The errors `Formula.__call__` and its validation helpers can raise.
`invalidInput` is `ValueError` (tag = the leading words of the message, the
interpolated values being elided), `unsatisfiedAssumption` is
`UnsatisfiedAssumptionError`, `keyError` is Python `KeyError` with its key
(for `set().pop()` the fixed message), `assertionError` the float guard, and
`nameError` a `NameError` from evaluating an assumption referencing an
unbound name. -/
inductive Err where
  | invalidInput (tag : String)
  | unsatisfiedAssumption
  | keyError (key : String)
  | assertionError
  | nameError
deriving DecidableEq

/-- The configured unsatisfied-assumption action.  Modelled from the spec:
the configuration mechanism and `raise_unsatisified_assumption` live outside
`src/` (§7: "fail / warn-and-continue / ignore"). -/
inductive Policy where
  | fail
  | warn
  | ignore
deriving DecidableEq

/-- An audit node for one evaluated operation (`OpResult`): name, value,
operator tag, and the parent operands (prior intermediates or raw inputs). -/
inductive OpResult where
  | mk (name : String) (value : Mod) (op : Option OpType) (parents : List (Sum OpResult Mod))

/-- The name of an `OpResult`. -/
def OpResult.name : OpResult → String
  | .mk n _ _ _ => n

/-- A formula, embedding the fields of the `Formula` abstract contract.
`num_inputs`, `num_outputs` and `shortname` are class attributes fixed per
arity variant in the source; they are instance fields here.  `code` order is
the declared execution order. -/
structure Formula where
  name : String
  shortname : String
  coordinate_model : CoordinateModel
  parameters : List String
  assumptions : List Assumption
  code : List CodeOp
  num_inputs : Nat
  num_outputs : Nat
  unified : Bool

/-- The per-invocation recorder (`FormulaAction`). -/
structure FormulaAction where
  formula : Formula
  inputs : Params
  input_points : List Point
  intermediates : List (String × List OpResult)
  outputs : List (String × OpResult)
  output_points : List Point

/-- Embeds `FormulaAction.add_operation`: a no-op when the ambient context is the
null context (`active = false`); otherwise resolve a parent for every
referenced name — the latest intermediate of that name if one exists, else
the raw input of that name, names matching neither silently omitted — and
append a new `OpResult` to the result name's history. -/
def FormulaAction.add_operation (active : Bool) (a : FormulaAction) (op : CodeOp)
    (value : Mod) : FormulaAction :=
  if active then
    let parents : List (Sum OpResult Mod) :=
      (dedupList (op.vars ++ op.parameters)).filterMap
        (fun nm =>
          match lookupA a.intermediates nm with
          | some li => li.getLast?.map Sum.inl
          | Option.none => (lookupA a.inputs nm).map Sum.inr)
    let li := (lookupA a.intermediates op.result).getD []
    { a with intermediates :=
        updateA a.intermediates op.result (li ++ [OpResult.mk op.result value op.operator parents]) }
  else a

/-- The loop body of `FormulaAction.add_result`: for each output name, bind
it to the latest recorded `OpResult` of that name; a name with no recorded
history raises `KeyError` (an empty history cannot occur, since
`add_operation` only ever appends). -/
def bindOutputs (inter : List (String × List OpResult)) (acc : List (String × OpResult)) :
    Params → Except Err (List (String × OpResult))
  | [] => .ok acc
  | (k, _) :: rest =>
    match lookupA inter k with
    | Option.none => .error (.keyError k)
    | some li =>
      match li.getLast? with
      | Option.none => .error (.keyError k)
      | some r => bindOutputs inter (updateA acc k r) rest

/-- Embeds `FormulaAction.add_result`: a no-op when the context is null; otherwise
bind every output name to its latest intermediate (raising `KeyError` if one
was never recorded) and append the point to the output list. -/
def FormulaAction.add_result (active : Bool) (a : FormulaAction) (point : Point)
    (outs : Params) : Except Err FormulaAction :=
  if active then
    match bindOutputs a.intermediates a.outputs outs with
    | .error e => .error e
    | .ok newOuts =>
      .ok { a with outputs := newOuts, output_points := a.output_points ++ [point] }
  else .ok a

/-- Embeds `Formula.__validate_params`: every curve parameter must be a field
element over `field`; the first offender raises
`ValueError("Wrong param input ...")`.  The embedding types parameters as
`Mod`, so only the modulus test remains observable. -/
def validate_params (field : Nat) : Params → Except Err Unit
  | [] => .ok ()
  | (_, v) :: rest =>
    if v.n ≠ field then .error (.invalidInput "wrong param input")
    else validate_params field rest

/-- Coordinate unrolling of one point: each coordinate must be a field
element over `field` (`ValueError("Wrong coordinate input ...")` otherwise)
and is bound under `"<coordinate><slot>"`. -/
def unrollCoords (field : Nat) (ind : String) :
    List (String × Mod) → Params → Except Err Params
  | [], params => .ok params
  | (coord, v) :: rest, params =>
    if v.n ≠ field then .error (.invalidInput "wrong coordinate input")
    else unrollCoords field ind rest (updateA params (coord ++ ind) v)

/-- The per-point loop of `Formula.__validate_points`: each point's
coordinate model must equal the formula's
(`ValueError("Wrong coordinate model ...")` otherwise), then its coordinates
are unrolled under slot `i+1`. -/
def unrollPoints (cm : CoordinateModel) (field : Nat) :
    List Point → Nat → Params → Except Err Params
  | [], _, params => .ok params
  | pt :: rest, slot, params =>
    if pt.coordinate_model = cm then
      match unrollCoords field (Nat.repr slot) pt.coords params with
      | .error e => .error e
      | .ok params' => unrollPoints cm field rest (slot + 1) params'
    else .error (.invalidInput "wrong coordinate model")

/-- Embeds `Formula.__validate_points`: the number of points must equal the
formula's input arity (`ValueError("Wrong number of inputs ...")`), then each
point is validated and unrolled, slots starting at 1. -/
def validate_points (f : Formula) (field : Nat) (points : List Point) (params : Params) :
    Except Err Params :=
  if points.length ≠ f.num_inputs then .error (.invalidInput "wrong number of inputs")
  else unrollPoints f.coordinate_model field points 1 params

/-- The `lhs in params` test of `__validate_assumptions`: the unparsed
left-hand side is a key of `params` exactly when it is a plain name bound in
`params` (every key of `params` is an identifier, which the unparse of a
compound expression never is). -/
def assumptionLhsBoundKey (params : Params) (a : Assumption) : Option String :=
  match a.lhs with
  | .var s => if (lookupA params s).isSome then some s else Option.none
  | _ => Option.none

/-- Embeds `raise_unsatisified_assumption` (sic) from `error.py`, modelled from the
spec (§7): under the fail policy raise `UnsatisfiedAssumptionError`, under
warn print a warning and continue, under ignore continue silently. -/
def raiseUnsatisfiedAssumption (pol : Policy) (params : Params) : Except Err Params :=
  match pol with
  | .fail => .error .unsatisfiedAssumption
  | .warn => .ok params
  | .ignore => .ok params

/-- The `eval(compiled, None, alocals)` of an input-coordinate assumption
check: evaluate both sides under the current bindings over the field and
compare (`Mod` equality); `Option.none` embeds the `NameError` raised when a
referenced name is unbound. -/
def evalAssumptionBool (p : Nat) (params : Params) (a : Assumption) : Option Bool :=
  match evalF p (fun nm => (lookupA params nm).map (fun m => m.x % p)) a.lhs,
      evalF p (fun nm => (lookupA params nm).map (fun m => m.x % p)) a.rhs with
  | some x, some y => some (decide (x = y))
  | _, _ => Option.none

/-- The body of the `__validate_assumptions` loop for one assumption.

If the left-hand side is a bound name, the assumption is evaluated as a
boolean under the current bindings; if it does not hold,
`raise_unsatisified_assumption` applies the configured policy (modelled from
the spec, §7: fail raises `UnsatisfiedAssumptionError`, warn and ignore
continue).

Otherwise the assumption defines a formula parameter: form `rhs - lhs`,
substitute all current bindings, and require — in source order — that at
most one free symbol remains (`ValueError("unsupported assumption")` if more)
and that popping the free-symbol set yields a declared formula parameter
(popping an empty set raises `KeyError("pop from an empty set")`; an
undeclared parameter raises the same `ValueError`).  Then bind the parameter
to the first root of the resulting univariate polynomial over the field, or
raise `UnsatisfiedAssumptionError` — unconditionally, on no root. -/
def resolveAssumption (pol : Policy) (p : Nat) (fparams : List String) (params : Params)
    (a : Assumption) : Except Err Params :=
  if (assumptionLhsBoundKey params a).isSome then
    match evalAssumptionBool p params a with
    | some true => .ok params
    | some false => raiseUnsatisfiedAssumption pol params
    | Option.none => .error .nameError
  else
    let e := Expr.sub a.rhs a.lhs
    let free := freeSymsIn params e
    if free.length > 1 then .error (.invalidInput "unsupported assumption")
    else
      match free with
      | [] => .error (.keyError "pop from an empty set")
      | s :: _ =>
        if s ∈ fparams then
          match (groundRootsOf p params e s).head? with
          | some r => .ok (updateA params s ⟨r, p⟩)
          | Option.none => .error .unsatisfiedAssumption
        else .error (.invalidInput "unsupported assumption")

/-- Embeds `Formula.__validate_assumptions`: resolve the assumptions in declared
order, threading the parameter bindings. -/
def validateAssumptions (pol : Policy) (p : Nat) (fparams : List String) :
    List Assumption → Params → Except Err Params
  | [], params => .ok params
  | a :: rest, params =>
    match resolveAssumption pol p fparams params a with
    | .error e => .error e
    | .ok params' => validateAssumptions pol p fparams rest params'

/-- The validation prefix of `Formula.__call__`: parameter validation, then
point validation, then assumption resolution — all strictly before the
recorder is constructed. -/
def validatePhase (pol : Policy) (f : Formula) (field : Nat) (points : List Point)
    (params : Params) : Except Err Params :=
  match validate_params field params with
  | .error e => .error e
  | .ok _ =>
    match validate_points f field points params with
    | .error e => .error e
    | .ok params₂ => validateAssumptions pol field f.parameters f.assumptions params₂

/-- The coercion applied to a raw operation result in `Formula.__call__`: a
float trips the strict guard (`Option.none` here), a `Mod` passes through
unchanged, an int is wrapped as `Mod(op_result, field)`. -/
def coerceValue (field : Nat) : Value → Option Mod
  | .float => Option.none
  | .mod m => some m
  | .int n => some ⟨(n % (field : Int)).toNat, field⟩

/-- The operation loop of `Formula.__call__`: evaluate each operation in
declared order against the current bindings, raise `AssertionError` on a
float result, coerce, record (`add_operation`), and bind the result name.  An
error carries the recorder state at the point of failure. -/
def runOps (active : Bool) (field : Nat) :
    List CodeOp → FormulaAction → Params → Except (Err × FormulaAction) (FormulaAction × Params)
  | [], a, ps => .ok (a, ps)
  | op :: rest, a, ps =>
    match coerceValue field (op.run ps) with
    | Option.none => .error (.assertionError, a)
    | some m =>
      let a' := FormulaAction.add_operation active a op m
      runOps active field rest a' (updateA ps op.result m)

/-- One output slot's coordinate collection: for each coordinate-model
variable, look up `"<variable><ind>"` in the bindings (`KeyError` if absent),
returning both the `resulting` map (keyed by variable) and the
`full_resulting` map (keyed by full name). -/
def collectSlot :
    List String → String → Params → Except Err (List (String × Mod) × Params)
  | [], _, _ => .ok ([], [])
  | v :: vs, ind, ps =>
    match lookupA ps (v ++ ind) with
    | Option.none => .error (.keyError (v ++ ind))
    | some m =>
      match collectSlot vs ind ps with
      | .error e => .error e
      | .ok (r, fr) => .ok ((v, m) :: r, (v ++ ind, m) :: fr)

/-- The output-assembly loop of `Formula.__call__`: for each output slot
`i` in `[0, count)` (slot number `outIdx + i`), collect the bound
coordinates, build the point tagged with the formula's coordinate model,
record it (`add_result`), and append it. -/
def assembleOutputs (active : Bool) (cm : CoordinateModel) (outIdx : Nat) :
    Nat → Nat → FormulaAction → Params →
      Except (Err × FormulaAction) (FormulaAction × List Point)
  | _, 0, a, _ => .ok (a, [])
  | i, count + 1, a, ps =>
    match collectSlot cm.vars (Nat.repr (outIdx + i)) ps with
    | .error e => .error (e, a)
    | .ok (resulting, fullResulting) =>
      let point : Point := ⟨cm, resulting⟩
      match FormulaAction.add_result active a point fullResulting with
      | .error e => .error (e, a)
      | .ok a' =>
        match assembleOutputs active cm outIdx (i + 1) count a' ps with
        | .error ea => .error ea
        | .ok (a'', pts) => .ok (a'', point :: pts)

/-- Embeds `EFDFormula.input_index`: always 1. -/
def efdInputIndex : Nat := 1

/-- Embeds `EFDFormula.output_index`, which is `max(self.num_inputs + 1, 3)`. -/
def efdOutputIndex (f : Formula) : Nat :=
  max (f.num_inputs + 1) 3

/-- The outcome of one `Formula.__call__`: the returned points or the raised
error, together with the recorder — `Option.none` when execution failed
before the recorder was constructed and registered with the ambient
context. -/
structure Outcome where
  result : Except Err (List Point)
  action : Option FormulaAction

/-- Embeds `Formula.__call__` (Execute): validate parameters, points and
assumptions; then, inside the scoped recorder, run the operation list and
assemble the output points.  `active` is whether a tracing context is active
(the null context is `false`); `pol` the configured unsatisfied-assumption
action.  Modelled from the spec for the external `ResultAction` lifecycle:
`action.exit(result)` passes the result through unmodified, and
entering/exiting the recorder itself never raises. -/
def Formula.exec (f : Formula) (active : Bool) (pol : Policy) (field : Nat)
    (points : List Point) (params : Params) : Outcome :=
  match validatePhase pol f field points params with
  | .error e => ⟨.error e, Option.none⟩
  | .ok ps =>
    let a0 : FormulaAction := ⟨f, ps, points, [], [], []⟩
    match runOps active field f.code a0 ps with
    | .error (e, a) => ⟨.error e, some a⟩
    | .ok (a, ps') =>
      match assembleOutputs active f.coordinate_model (efdOutputIndex f) 0 f.num_outputs a ps' with
      | .error (e, a') => ⟨.error e, some a'⟩
      | .ok (a', pts) => ⟨.ok pts, some a'⟩

/-- Whether an outcome is a raised `InvalidInput` (`ValueError`). -/
def execRaisesInvalidInput (o : Outcome) : Bool :=
  match o.result with
  | .error (.invalidInput _) => true
  | _ => false

/-- Embeds `EFDFormula.__eq__`: two EFD-backed formulas are equal exactly when their
names and coordinate models agree (the `isinstance` guard is vacuous here,
every embedded formula being EFD-backed). -/
def efdEq (a b : Formula) : Bool :=
  (a.name == b.name) && (decide (a.coordinate_model = b.coordinate_model))

/-- A stand-in for Python's opaque `hash` on strings: any fixed function of
the string. -/
def strHash (s : String) : Nat :=
  s.foldl (fun h c => h * 31 + c.toNat) 5381

/-- A stand-in for Python's `hash` on a coordinate model: a fixed function of
its fields (Python guarantees hash consistent with the external class's
equality, which is structural here). -/
def cmHash (cm : CoordinateModel) : Nat :=
  strHash cm.name * 31 + (cm.vars.foldl (fun h s => h * 31 + strHash s) 7)

/-- Embeds `EFDFormula.__hash__`, which is `hash(self.name) + hash(self.coordinate_model)`. -/
def efdHash (f : Formula) : Nat :=
  strHash f.name + cmHash f.coordinate_model

/-- The two adapters the scope backend selector may bind the uniform
`PicoScope` name to. -/
inductive ScopeBackend where
  | PicoScopeAlt
  | PicoScopeSdk
deriving DecidableEq

/-- The state of the `pyecsca.sca.scope` module after initialization. -/
structure ScopeModuleState where
  has_picoscope : Bool
  has_picosdk : Bool
  has_chipwhisperer : Bool
  PicoScope : Option ScopeBackend
  chipwhisperer_exposed : Bool
deriving DecidableEq

/-- Module-load logic of `src/pyecsca/sca/scope/__init__.py`: probe the three
optional packages (an `ImportError` is swallowed, so each probe is just a
boolean); bind `PicoScope` to `PicoScopeAlt` if `picoscope` is importable,
else to `PicoScopeSdk` if `picosdk` is, else leave it unbound
(`Option.none`); expose the chipwhisperer adapter independently.  Totality of
this function embeds "module initialization raises no error". -/
def initScopeModule (importable_picoscope importable_picosdk importable_chipwhisperer : Bool) :
    ScopeModuleState :=
  { has_picoscope := importable_picoscope
    has_picosdk := importable_picosdk
    has_chipwhisperer := importable_chipwhisperer
    PicoScope :=
      if importable_picoscope then some .PicoScopeAlt
      else if importable_picosdk then some .PicoScopeSdk
      else Option.none
    chipwhisperer_exposed := importable_chipwhisperer }

/-!  Proof-side projections of the execution loops.  These are not part of
the embedding; they exist so that the tracing-independence lemmas can state
that the error/params/points components of a run do not depend on the
recorder. -/

/-- The operation loop with the recorder erased. -/
def pureRun (field : Nat) : List CodeOp → Params → Except Err Params
  | [], ps => .ok ps
  | op :: rest, ps =>
    match coerceValue field (op.run ps) with
    | Option.none => .error .assertionError
    | some m => pureRun field rest (updateA ps op.result m)

/-- The output-assembly loop with the recorder erased. -/
def pureAssemble (cm : CoordinateModel) (outIdx : Nat) :
    Nat → Nat → Params → Except Err (List Point)
  | _, 0, _ => .ok []
  | i, count + 1, ps =>
    match collectSlot cm.vars (Nat.repr (outIdx + i)) ps with
    | .error e => .error e
    | .ok (resulting, _) =>
      match pureAssemble cm outIdx (i + 1) count ps with
      | .error e => .error e
      | .ok pts => .ok ((⟨cm, resulting⟩ : Point) :: pts)

/-- Forget the recorder component of an operation-loop result. -/
def projRun : Except (Err × FormulaAction) (FormulaAction × Params) → Except Err Params
  | .error (e, _) => .error e
  | .ok (_, ps) => .ok ps

/-- Forget the recorder component of an output-assembly result. -/
def projAssemble :
    Except (Err × FormulaAction) (FormulaAction × List Point) → Except Err (List Point)
  | .error (e, _) => .error e
  | .ok (_, pts) => .ok pts

/-- A name has a nonempty recorded history in an intermediates map — the
condition under which `add_result` can bind it. -/
def keyHasHist (inter : List (String × List OpResult)) (k : String) : Prop :=
  ∃ li, lookupA inter k = some li ∧ li ≠ []

/-!  Concrete instances used by witnesses and counterexamples. -/

/-- A one-variable projective-style coordinate model for the concrete
instances. -/
def cmW : CoordinateModel := ⟨"w", ["X"]⟩

/-- A concrete addition operation `X3 = X1 + X2` over the field of size 5. -/
def opW : CodeOp :=
  { result := "X3"
    operator := some .Add
    vars := ["X1", "X2"]
    parameters := []
    run := fun ps =>
      match lookupA ps "X1", lookupA ps "X2" with
      | some a, some b => .mod ⟨(a.x + b.x) % 5, 5⟩
      | _, _ => .int 0 }

/-- A concrete two-input addition formula computing `X3 = X1 + X2`. -/
def fW : Formula :=
  { name := "addW"
    shortname := "add"
    coordinate_model := cmW
    parameters := []
    assumptions := []
    code := [opW]
    num_inputs := 2
    num_outputs := 1
    unified := false }

/-- Concrete input points for `fW` over the field of size 5. -/
def ptsW : List Point := [⟨cmW, [("X", ⟨1, 5⟩)]⟩, ⟨cmW, [("X", ⟨2, 5⟩)]⟩]

/-- A formula with an empty operation list: its output coordinate `X3` can
only come from a caller-supplied binding, which the active-context recorder
rejects. -/
def fCE : Formula :=
  { name := "ce"
    shortname := "dbl"
    coordinate_model := cmW
    parameters := []
    assumptions := []
    code := []
    num_inputs := 1
    num_outputs := 1
    unified := false }

/-- The assumption `w*w == 2`: over the field of size 5 it has no root
(2 is not a quadratic residue mod 5). -/
def assumNoRoot : Assumption := ⟨Expr.mul (Expr.var "w") (Expr.var "w"), Expr.lit 2⟩

/-- A zero-input formula whose sole assumption `w*w == 2` has no root
mod 5. -/
def fC3w : Formula :=
  { name := "c3w"
    shortname := "dbl"
    coordinate_model := cmW
    parameters := ["w"]
    assumptions := [assumNoRoot]
    code := []
    num_inputs := 0
    num_outputs := 0
    unified := false }

/-- The assumption `0 == a`: with `a` a bound curve parameter, its left-hand
side is not a bound name, and after substitution no free symbol remains. -/
def assumZeroFree : Assumption := ⟨Expr.lit 0, Expr.var "a"⟩

/-- A zero-input formula whose sole assumption leaves zero free symbols after
substitution. -/
def fC4ce : Formula :=
  { name := "c4ce"
    shortname := "dbl"
    coordinate_model := cmW
    parameters := ["w"]
    assumptions := [assumZeroFree]
    code := []
    num_inputs := 0
    num_outputs := 0
    unified := false }

/-- The assumption `2*half == 1` of claim C5. -/
def assumHalf : Assumption := ⟨Expr.mul (Expr.lit 2) (Expr.var "half"), Expr.lit 1⟩

/-- A formula sharing `fW`'s name and coordinate model but nothing else:
equal and hash-equal to `fW` under the EFD equality. -/
def fW2 : Formula :=
  { name := "addW"
    shortname := "dbl"
    coordinate_model := cmW
    parameters := []
    assumptions := []
    code := []
    num_inputs := 1
    num_outputs := 1
    unified := false }

/-- A zero-input formula whose sole assumption `q == 1` has one free symbol
`q` that is not a declared formula parameter. -/
def fC4w : Formula :=
  { name := "c4w"
    shortname := "dbl"
    coordinate_model := cmW
    parameters := ["w"]
    assumptions := [⟨Expr.var "q", Expr.lit 1⟩]
    code := []
    num_inputs := 0
    num_outputs := 0
    unified := false }

/-- The seven arity variants: short tag, input arity, output arity
(`AdditionFormula` … `LadderFormula`). -/
def formulaKinds : List (String × Nat × Nat) :=
  [("add", 2, 1), ("dbl", 1, 1), ("tpl", 1, 1), ("neg", 1, 1), ("scl", 1, 1),
   ("dadd", 3, 1), ("ladd", 3, 2)]

/-!  ## Basic dictionary lemmas -/

theorem lookupA_updateA {α : Type} (l : List (String × α)) (k k' : String) (v : α) :
    lookupA (updateA l k v) k' = if k = k' then some v else lookupA l k' := by
  induction l with
  | nil =>
    by_cases h : k = k' <;> simp [updateA, lookupA, h]
  | cons hd tl ih =>
    obtain ⟨hk, hv⟩ := hd
    by_cases h1 : hk = k
    · subst h1
      by_cases h2 : hk = k' <;> simp [updateA, lookupA, h2]
    · by_cases h2 : hk = k'
      · subst h2
        have hkk : ¬ k = hk := fun hh => h1 hh.symm
        simp [updateA, lookupA, h1, hkk]
      · simp [updateA, lookupA, h1, h2, ih]

/-!  ## Theorems for the claims -/

/-- C7: for every EFD-backed formula of every arity variant, `output_index`
equals `max(num_inputs + 1, 3)` — 3 for the 1- and 2-input kinds and 4 for
the 3-input kinds — so output coordinate slot numbers never coincide with
input slot numbers, which start at `input_index = 1` and occupy
`1..num_inputs`. -/
theorem claim_C7 (f : Formula) (k : String × Nat × Nat) (hk : k ∈ formulaKinds)
    (h1 : f.num_inputs = k.2.1) (h2 : f.num_outputs = k.2.2) :
    efdOutputIndex f = max (f.num_inputs + 1) 3 ∧
    efdInputIndex = 1 ∧
    (f.num_inputs ≤ 2 → efdOutputIndex f = 3) ∧
    (f.num_inputs = 3 → efdOutputIndex f = 4) ∧
    ∀ i j : Nat, efdInputIndex ≤ i → i ≤ f.num_inputs → j < f.num_outputs →
      efdOutputIndex f + j ≠ i := by
  refine ⟨rfl, rfl, ?_, ?_, ?_⟩ <;>
    fin_cases hk <;>
    simp_all [efdOutputIndex, efdInputIndex] <;>
    omega

/-- Witness for C7 at the Addition variant (2 inputs, 1 output), on a
concrete formula with that arity. -/
theorem claim_C7_witness :
    efdOutputIndex fW = max (fW.num_inputs + 1) 3 ∧
    efdInputIndex = 1 ∧
    (fW.num_inputs ≤ 2 → efdOutputIndex fW = 3) ∧
    (fW.num_inputs = 3 → efdOutputIndex fW = 4) ∧
    ∀ i j : Nat, efdInputIndex ≤ i → i ≤ fW.num_inputs → j < fW.num_outputs →
      efdOutputIndex fW + j ≠ i :=
  claim_C7 fW ("add", 2, 1) (by decide) rfl rfl

/-- C8: two EFD-backed formulas are equal exactly when they share name and
coordinate model, and equal formulas hash identically. -/
theorem claim_C8 (a b : Formula) :
    (efdEq a b = true ↔ (a.name = b.name ∧ a.coordinate_model = b.coordinate_model)) ∧
    (efdEq a b = true → efdHash a = efdHash b) := by
  constructor
  · simp [efdEq]
  · intro h
    simp [efdEq] at h
    simp [efdHash, h.1, h.2]

/-- Witness for C8: `fW` and `fW2` share name and coordinate model (and
nothing else), so they compare equal and hash identically. -/
theorem claim_C8_witness : efdHash fW = efdHash fW2 :=
  (claim_C8 fW fW2).2 (by decide)

/-- C9: at module load of the scope backend selector, `PicoScope` is bound
to the adapter on the general vendor package when `picoscope` is importable
(even when `picosdk` also is), else to `PicoScopeSdk` when only `picosdk`
is, and is left unbound when neither is — and module initialization (a total
function here) raises no error. -/
theorem claim_C9 : ∀ sdk cw : Bool,
    (initScopeModule true sdk cw).PicoScope = some ScopeBackend.PicoScopeAlt ∧
    (initScopeModule false true cw).PicoScope = some ScopeBackend.PicoScopeSdk ∧
    (initScopeModule false false cw).PicoScope = Option.none := by
  decide

/-- C10: any error raised by the validation phase (parameter validation,
point validation, assumption resolution) surfaces before the recorder is
constructed or registered with the ambient context: the outcome carries that
error and no recorder — hence no intermediate and no output point — was ever
produced. -/
theorem claim_C10 (act : Bool) (pol : Policy) (f : Formula) (field : Nat)
    (points : List Point) (params : Params) (e : Err)
    (h : validatePhase pol f field points params = .error e) :
    (f.exec act pol field points params).result = .error e ∧
    (f.exec act pol field points params).action = Option.none := by
  unfold Formula.exec
  rw [h]
  exact ⟨rfl, rfl⟩

/-- Witness for C10: executing the concrete addition formula with no input
points fails validation, and the outcome carries no recorder. -/
theorem claim_C10_witness :
    (fW.exec false Policy.fail 5 [] []).result = .error (.invalidInput "wrong number of inputs") ∧
    (fW.exec false Policy.fail 5 [] []).action = Option.none :=
  claim_C10 false Policy.fail fW 5 [] [] (.invalidInput "wrong number of inputs") (by decide)

/-!  ## Validation-shape lemmas (for C6) -/

theorem validate_params_error (field : Nat) (params : Params) (e : Err)
    (h : validate_params field params = .error e) : ∃ m, e = .invalidInput m := by
  induction params with
  | nil => simp [validate_params] at h
  | cons hd tl ih =>
    rw [validate_params] at h
    split at h
    · exact ⟨"wrong param input", by injection h with h'; exact h'.symm⟩
    · exact ih h

theorem unrollCoords_error (field : Nat) (ind : String) (coords : List (String × Mod))
    (params : Params) (e : Err) (h : unrollCoords field ind coords params = .error e) :
    ∃ m, e = .invalidInput m := by
  induction coords generalizing params with
  | nil => simp [unrollCoords] at h
  | cons hd tl ih =>
    obtain ⟨c, v⟩ := hd
    rw [unrollCoords] at h
    split at h
    · exact ⟨"wrong coordinate input", by injection h with h'; exact h'.symm⟩
    · exact ih _ h

theorem unrollPoints_error (cm : CoordinateModel) (field : Nat) (points : List Point)
    (slot : Nat) (params : Params) (e : Err)
    (h : unrollPoints cm field points slot params = .error e) : ∃ m, e = .invalidInput m := by
  induction points generalizing slot params with
  | nil => simp [unrollPoints] at h
  | cons pt tl ih =>
    rw [unrollPoints] at h
    split at h
    · split at h
      · rename_i e' heq
        injection h with h'
        subst h'
        exact unrollCoords_error _ _ _ _ _ heq
      · exact ih _ _ h
    · exact ⟨"wrong coordinate model", by injection h with h'; exact h'.symm⟩

theorem validate_points_error (f : Formula) (field : Nat) (points : List Point)
    (params : Params) (e : Err) (h : validate_points f field points params = .error e) :
    ∃ m, e = .invalidInput m := by
  rw [validate_points] at h
  split at h
  · exact ⟨"wrong number of inputs", by injection h with h'; exact h'.symm⟩
  · exact unrollPoints_error _ _ _ _ _ _ h

theorem unrollPoints_ok_models (cm : CoordinateModel) (field : Nat) (points : List Point)
    (slot : Nat) (params ps' : Params)
    (h : unrollPoints cm field points slot params = .ok ps') :
    ∀ pt ∈ points, pt.coordinate_model = cm := by
  induction points generalizing slot params with
  | nil => intro pt hpt; cases hpt
  | cons hd tl ih =>
    intro pt hpt
    rw [unrollPoints] at h
    split at h
    · rename_i hcm
      split at h
      · cases h
      · cases hpt with
        | head => exact hcm
        | tail _ htl => exact ih _ _ h pt htl
    · cases h

theorem validate_points_ok (f : Formula) (field : Nat) (points : List Point)
    (params ps' : Params) (h : validate_points f field points params = .ok ps') :
    points.length = f.num_inputs ∧
    ∀ pt ∈ points, pt.coordinate_model = f.coordinate_model := by
  rw [validate_points] at h
  split at h
  · cases h
  · rename_i hlen
    exact ⟨by omega, unrollPoints_ok_models _ _ _ _ _ _ h⟩

/-- C6: Execute raises an InvalidInput error whenever the number of supplied
points differs from the formula's input arity, and whenever some supplied
point's coordinate model differs from the formula's (the offending run can
also trip an earlier InvalidInput check, e.g. a bad coordinate of an earlier
point — the raised error is an InvalidInput in every case). -/
theorem claim_C6 (act : Bool) (pol : Policy) (f : Formula) (field : Nat)
    (points : List Point) (params : Params)
    (h : points.length ≠ f.num_inputs ∨
      ∃ pt ∈ points, pt.coordinate_model ≠ f.coordinate_model) :
    execRaisesInvalidInput (f.exec act pol field points params) = true := by
  have hphase : ∃ m, validatePhase pol f field points params = .error (.invalidInput m) := by
    rw [validatePhase]
    cases hvp : validate_params field params with
    | error e =>
      obtain ⟨m, rfl⟩ := validate_params_error _ _ _ hvp
      exact ⟨m, rfl⟩
    | ok u =>
      cases hpt : validate_points f field points params with
      | error e =>
        obtain ⟨m, rfl⟩ := validate_points_error _ _ _ _ _ hpt
        exact ⟨m, rfl⟩
      | ok ps' =>
        exfalso
        obtain ⟨hlen, hmods⟩ := validate_points_ok _ _ _ _ _ hpt
        cases h with
        | inl hbad => exact hbad hlen
        | inr hbad =>
          obtain ⟨pt, hmem, hne⟩ := hbad
          exact hne (hmods pt hmem)
  obtain ⟨m, hm⟩ := hphase
  rw [Formula.exec, hm]
  rfl

/-- Witness for C6: running the two-input addition formula on zero points
raises an InvalidInput error. -/
theorem claim_C6_witness :
    execRaisesInvalidInput (fW.exec false Policy.fail 5 [] []) = true :=
  claim_C6 false Policy.fail fW 5 [] [] (Or.inl (by decide))

/-!  ## Output-assembly lemmas (for C1) -/

theorem assembleOutputs_ok (act : Bool) (cm : CoordinateModel) (outIdx : Nat) :
    ∀ (count i : Nat) (a : FormulaAction) (ps : Params) (a' : FormulaAction) (pts : List Point),
      assembleOutputs act cm outIdx i count a ps = .ok (a', pts) →
      pts.length = count ∧ ∀ pt ∈ pts, pt.coordinate_model = cm := by
  intro count
  induction count with
  | zero =>
    intro i a ps a' pts h
    rw [assembleOutputs] at h
    injection h with h'
    injection h' with h1 h2
    subst h2
    exact ⟨rfl, by intro pt hpt; cases hpt⟩
  | succ n ih =>
    intro i a ps a' pts h
    rw [assembleOutputs] at h
    split at h
    · cases h
    · rename_i resulting fullResulting heq
      dsimp only at h
      split at h
      · cases h
      · rename_i a₁ hres
        split at h
        · cases h
        · rename_i a₂ pts₂ hrec
          injection h with h'
          injection h' with h1 h2
          subst h2
          obtain ⟨hlen, hmods⟩ := ih (i + 1) a₁ ps a₂ pts₂ hrec
          refine ⟨by simp [hlen], ?_⟩
          intro pt hpt
          cases hpt with
          | head => rfl
          | tail _ htl => exact hmods pt htl

/-- C1: whenever Execute returns without error, the returned tuple contains
exactly `num_outputs` points, and every returned point's coordinate model is
the formula's. -/
theorem claim_C1 (act : Bool) (pol : Policy) (f : Formula) (field : Nat)
    (points : List Point) (params : Params) (pts : List Point)
    (h : (f.exec act pol field points params).result = .ok pts) :
    pts.length = f.num_outputs ∧ ∀ pt ∈ pts, pt.coordinate_model = f.coordinate_model := by
  rw [Formula.exec] at h
  split at h
  · cases h
  · dsimp only at h
    split at h
    · cases h
    · rename_i pr hrun
      split at h
      · cases h
      · rename_i a' pts' hasm
        injection h with h'
        subst h'
        exact assembleOutputs_ok _ _ _ _ _ _ _ _ _ hasm

/-- Witness for C1: the concrete addition formula under an active context
returns one point tagged with its coordinate model. -/
theorem claim_C1_witness :
    ([(⟨cmW, [("X", ⟨3, 5⟩)]⟩ : Point)].length = fW.num_outputs ∧
      ∀ pt ∈ [(⟨cmW, [("X", ⟨3, 5⟩)]⟩ : Point)], pt.coordinate_model = fW.coordinate_model) :=
  claim_C1 true Policy.fail fW 5 ptsW [] [⟨cmW, [("X", ⟨3, 5⟩)]⟩] (by decide)

/-!  ## Assumption-resolution lemmas (for C3, C4, C5) -/

theorem validateAssumptions_cons (pol : Policy) (p : Nat) (fparams : List String)
    (a : Assumption) (rest : List Assumption) (params : Params) :
    validateAssumptions pol p fparams (a :: rest) params =
      match resolveAssumption pol p fparams params a with
      | .error e => .error e
      | .ok ps => validateAssumptions pol p fparams rest ps := rfl

theorem validateAssumptions_append (pol : Policy) (p : Nat) (fparams : List String)
    (xs ys : List Assumption) (params : Params) :
    validateAssumptions pol p fparams (xs ++ ys) params =
      match validateAssumptions pol p fparams xs params with
      | .error e => .error e
      | .ok ps => validateAssumptions pol p fparams ys ps := by
  induction xs generalizing params with
  | nil => rfl
  | cons a tl ih =>
    rw [List.cons_append, validateAssumptions_cons, validateAssumptions_cons]
    cases resolveAssumption pol p fparams params a with
    | error e => rfl
    | ok params' => exact ih params'

/-- C3: a parameter-defining assumption (left-hand side not a bound name)
whose univariate polynomial, after substituting all bound values, has no
root in the field makes Execute fail with an UnsatisfiedAssumption error,
regardless of the configured unsatisfied-assumption policy (`pol` is
universally quantified). -/
theorem claim_C3 (act : Bool) (pol : Policy) (f : Formula) (field : Nat)
    (points : List Point) (params : Params) (pre post : List Assumption) (a : Assumption)
    (params₂ params₁ : Params) (s : String)
    (hvp : validate_params field params = .ok ())
    (hpt : validate_points f field points params = .ok params₂)
    (has : f.assumptions = pre ++ a :: post)
    (hpre : validateAssumptions pol field f.parameters pre params₂ = .ok params₁)
    (hlhs : assumptionLhsBoundKey params₁ a = Option.none)
    (hfree : freeSymsIn params₁ (Expr.sub a.rhs a.lhs) = [s])
    (hs : s ∈ f.parameters)
    (hroots : groundRootsOf field params₁ (Expr.sub a.rhs a.lhs) s = []) :
    (f.exec act pol field points params).result = .error .unsatisfiedAssumption := by
  have hres : resolveAssumption pol field f.parameters params₁ a = .error .unsatisfiedAssumption := by
    rw [resolveAssumption, hlhs]
    rw [if_neg (by simp)]
    dsimp only
    rw [hfree]
    rw [if_neg (by simp)]
    dsimp only
    rw [if_pos hs, hroots]
    rfl
  have hall : validateAssumptions pol field f.parameters f.assumptions params₂
      = .error .unsatisfiedAssumption := by
    rw [has, validateAssumptions_append, hpre]
    dsimp only
    rw [validateAssumptions_cons, hres]
  have hphase : validatePhase pol f field points params = .error .unsatisfiedAssumption := by
    rw [validatePhase, hvp, hpt]
    exact hall
  rw [Formula.exec, hphase]

/-- Witness for C3: the assumption `w*w == 2` has no root mod 5, so the
concrete formula fails with UnsatisfiedAssumption even under the ignore
policy. -/
theorem claim_C3_witness :
    (fC3w.exec false Policy.ignore 5 [] []).result = .error .unsatisfiedAssumption :=
  claim_C3 false Policy.ignore fC3w 5 [] [] [] [] assumNoRoot [] [] "w"
    (by decide) (by decide) rfl (by decide) (by decide) (by decide) (by decide) (by decide)

/-- C4 (amended): for an assumption whose left-hand side is not a bound
name, if after substitution the free symbols are not exactly one declared
formula parameter, Execute fails — with InvalidInput ("unsupported
assumption") when more than one free symbol remains or the sole free symbol
is undeclared, but with a KeyError ("pop from an empty set"), not
InvalidInput, when zero free symbols remain. -/
theorem claim_C4_amended (act : Bool) (pol : Policy) (f : Formula) (field : Nat)
    (points : List Point) (params : Params) (pre post : List Assumption) (a : Assumption)
    (params₂ params₁ : Params)
    (hvp : validate_params field params = .ok ())
    (hpt : validate_points f field points params = .ok params₂)
    (has : f.assumptions = pre ++ a :: post)
    (hpre : validateAssumptions pol field f.parameters pre params₂ = .ok params₁)
    (hlhs : assumptionLhsBoundKey params₁ a = Option.none)
    (hbad : (freeSymsIn params₁ (Expr.sub a.rhs a.lhs)).length ≠ 1 ∨
      ∃ s, freeSymsIn params₁ (Expr.sub a.rhs a.lhs) = [s] ∧ s ∉ f.parameters) :
    (f.exec act pol field points params).result =
      .error (if freeSymsIn params₁ (Expr.sub a.rhs a.lhs) = [] then
        Err.keyError "pop from an empty set" else Err.invalidInput "unsupported assumption") := by
  have hres : resolveAssumption pol field f.parameters params₁ a =
      .error (if freeSymsIn params₁ (Expr.sub a.rhs a.lhs) = [] then
        Err.keyError "pop from an empty set" else Err.invalidInput "unsupported assumption") := by
    rw [resolveAssumption, hlhs]
    rw [if_neg (by simp)]
    dsimp only
    rcases hfl : freeSymsIn params₁ (Expr.sub a.rhs a.lhs) with _ | ⟨s, tl⟩
    · simp
    · cases tl with
      | nil =>
        have hsnot : s ∉ f.parameters := by
          rcases hbad with hb | ⟨s', heq, hnot⟩
          · rw [hfl] at hb
            simp at hb
          · rw [hfl] at heq
            injection heq with h1 h2
            subst h1
            exact hnot
        simp [hsnot]
      | cons s2 tl2 =>
        simp
  have hall : validateAssumptions pol field f.parameters f.assumptions params₂
      = .error (if freeSymsIn params₁ (Expr.sub a.rhs a.lhs) = [] then
        Err.keyError "pop from an empty set" else Err.invalidInput "unsupported assumption") := by
    rw [has, validateAssumptions_append, hpre]
    dsimp only
    rw [validateAssumptions_cons, hres]
  have hphase : validatePhase pol f field points params
      = .error (if freeSymsIn params₁ (Expr.sub a.rhs a.lhs) = [] then
        Err.keyError "pop from an empty set" else Err.invalidInput "unsupported assumption") := by
    rw [validatePhase, hvp, hpt]
    exact hall
  rw [Formula.exec, hphase]

/-- Counterexample to C4 as stated: for the assumption `0 == a` with `a` a
bound curve parameter, zero free symbols remain after substitution; Execute
fails with a KeyError (Python `set().pop()` on the empty free-symbol set),
not with an InvalidInput error. -/
theorem claim_C4_counterexample :
    (fC4ce.exec false Policy.fail 5 [] [("a", ⟨1, 5⟩)]).result
        = .error (.keyError "pop from an empty set") ∧
    execRaisesInvalidInput (fC4ce.exec false Policy.fail 5 [] [("a", ⟨1, 5⟩)]) = false := by
  decide

/-- Witness for the amended C4: the assumption `q == 1` with `q` unbound and
undeclared has exactly one free symbol that is not a formula parameter, and
Execute fails with InvalidInput ("unsupported assumption"). -/
theorem claim_C4_witness :
    (fC4w.exec false Policy.fail 5 [] []).result =
      .error (if freeSymsIn [] (Expr.sub (Expr.lit 1) (Expr.var "q")) = [] then
        Err.keyError "pop from an empty set" else Err.invalidInput "unsupported assumption") :=
  claim_C4_amended false Policy.fail fC4w 5 [] [] [] [] ⟨Expr.var "q", Expr.lit 1⟩ [] []
    (by decide) (by decide) rfl (by decide) (by decide)
    (Or.inr ⟨"q", by decide, by decide⟩)

/-!  ## Lemmas for C5 -/

theorem mod_one_sub_helper (p m : Nat) (hp : 2 ≤ p) (hm : m < p) :
    ((1 + (p - m)) % p = 0 ↔ m = 1) := by
  constructor
  · intro h
    rcases Nat.eq_zero_or_pos m with hm0 | hm1
    · subst hm0
      rw [Nat.sub_zero, Nat.add_mod_right] at h
      rw [Nat.mod_eq_of_lt (by omega)] at h
      omega
    · have hs : 1 + (p - m) ≤ p := by omega
      rcases Nat.lt_or_ge (1 + (p - m)) p with hlt | hge
      · rw [Nat.mod_eq_of_lt hlt] at h
        omega
      · omega
  · intro h
    subst h
    have hpe : 1 + (p - 1) = p := by omega
    rw [hpe, Nat.mod_self]

theorem head_filter_unique (p : Nat) (q : Nat → Bool) (v : Nat) (hv : v < p)
    (hqv : q v = true) (huq : ∀ w, w < p → q w = true → w = v) :
    ((List.range p).filter q).head? = some v := by
  cases hl : (List.range p).filter q with
  | nil =>
    exfalso
    have hin : v ∈ (List.range p).filter q :=
      List.mem_filter.mpr ⟨List.mem_range.mpr hv, hqv⟩
    rw [hl] at hin
    cases hin
  | cons x t =>
    have hx : x ∈ (List.range p).filter q := by
      rw [hl]
      exact List.mem_cons_self x t
    have hmem := List.mem_filter.mp hx
    have hxv : x = v := huq x (List.mem_range.mp hmem.1) hmem.2
    simp [hxv]

theorem evalHalf (p x : Nat) (params : Params) (hp : 3 ≤ p) :
    evalF p (fun nm => if nm = "half" then some x else (lookupA params nm).map (fun m => m.x % p))
      (Expr.sub assumHalf.rhs assumHalf.lhs)
    = some ((1 + (p - (2 * x) % p)) % p) := by
  have e1 : ((1 : Int) % (p : Int)).toNat = 1 := by
    have h : (1 : Int) % (p : Int) = 1 :=
      Int.emod_eq_of_lt (by norm_num) (by exact_mod_cast (by omega : 1 < p))
    rw [h]
    rfl
  have e2 : ((2 : Int) % (p : Int)).toNat = 2 := by
    have h : (2 : Int) % (p : Int) = 2 :=
      Int.emod_eq_of_lt (by norm_num) (by exact_mod_cast (by omega : 2 < p))
    rw [h]
    rfl
  have hmm : ((2 * x) % p) % p = (2 * x) % p :=
    Nat.mod_eq_of_lt (Nat.mod_lt _ (by omega))
  have h1p : 1 % p = 1 := Nat.mod_eq_of_lt (by omega)
  simp only [assumHalf, evalF]
  norm_num [e1, e2, hmm, h1p]

/-- C5: for an odd prime modulus `p`, resolving the assumption `2*half == 1`
(with `half` a declared, not-yet-bound formula parameter) binds `half` to
`(p+1)/2` — the unique field element that is the multiplicative inverse of 2
modulo `p`. -/
theorem claim_C5 (pol : Policy) (p : Nat) (fparams : List String) (params : Params)
    (hp : Nat.Prime p) (h2 : p ≠ 2) (hf : "half" ∈ fparams)
    (hub : lookupA params "half" = Option.none) :
    validateAssumptions pol p fparams [assumHalf] params
        = .ok (updateA params "half" ⟨(p + 1) / 2, p⟩) ∧
    (2 * ((p + 1) / 2)) % p = 1 ∧ (p + 1) / 2 < p ∧
    ∀ w, w < p → (2 * w) % p = 1 → w = (p + 1) / 2 := by
  have hple := hp.two_le
  have hp3 : 3 ≤ p := by omega
  have hodd : p % 2 = 1 := Nat.odd_iff.mp (hp.odd_of_ne_two h2)
  have hdvd : 2 ∣ p + 1 := by omega
  have h2v : 2 * ((p + 1) / 2) = p + 1 := Nat.mul_div_cancel' hdvd
  have hmod : (2 * ((p + 1) / 2)) % p = 1 := by
    rw [h2v, Nat.add_mod_left]
    exact Nat.mod_eq_of_lt (by omega)
  have hvlt : (p + 1) / 2 < p := by omega
  have hcop : Nat.gcd p 2 = 1 := hp.coprime_iff_not_dvd.mpr (by
    intro hdv
    have := Nat.le_of_dvd (by norm_num) hdv
    omega)
  have huniq : ∀ w, w < p → (2 * w) % p = 1 → w = (p + 1) / 2 := by
    intro w hw h1w
    have hmw : 2 * w ≡ 1 [MOD p] := by
      unfold Nat.ModEq
      rw [h1w, Nat.mod_eq_of_lt (by omega)]
    have hmv : 2 * ((p + 1) / 2) ≡ 1 [MOD p] := by
      unfold Nat.ModEq
      rw [hmod, Nat.mod_eq_of_lt (by omega)]
    have hcan : w ≡ (p + 1) / 2 [MOD p] :=
      Nat.ModEq.cancel_left_of_coprime hcop (hmw.trans hmv.symm)
    have := hcan
    unfold Nat.ModEq at this
    rw [Nat.mod_eq_of_lt hw, Nat.mod_eq_of_lt hvlt] at this
    exact this
  have hq : ∀ x, x < p →
      ((evalF p (fun nm => if nm = "half" then some x
          else (lookupA params nm).map (fun m => m.x % p))
        (Expr.sub assumHalf.rhs assumHalf.lhs) == some 0) = true ↔ (2 * x) % p = 1) := by
    intro x hx
    rw [evalHalf p x params hp3]
    rw [beq_iff_eq, Option.some_inj]
    exact mod_one_sub_helper p ((2 * x) % p) (by omega) (Nat.mod_lt _ (by omega))
  have hhead : (groundRootsOf p params (Expr.sub assumHalf.rhs assumHalf.lhs) "half").head?
      = some ((p + 1) / 2) := by
    rw [groundRootsOf]
    apply head_filter_unique p _ _ hvlt
    · exact (hq _ hvlt).mpr hmod
    · intro w hw hqw
      exact huniq w hw ((hq w hw).mp hqw)
  refine ⟨?_, hmod, hvlt, huniq⟩
  rw [validateAssumptions_cons]
  have hres : resolveAssumption pol p fparams params assumHalf
      = .ok (updateA params "half" ⟨(p + 1) / 2, p⟩) := by
    rw [resolveAssumption]
    rw [if_neg (by simp [assumptionLhsBoundKey, assumHalf])]
    dsimp only
    have hfr : freeSymsIn params (Expr.sub assumHalf.rhs assumHalf.lhs) = ["half"] := by
      simp [freeSymsIn, freeVars, varsOf, assumHalf, dedupList, dedupAux, hub]
    rw [hfr]
    rw [if_neg (by simp)]
    dsimp only
    rw [if_pos hf, hhead]
  rw [hres]
  rfl

/-- Witness for C5 at `p = 5`: `half` is bound to 3, the inverse of 2
mod 5. -/
theorem claim_C5_witness :
    (validateAssumptions Policy.fail 5 ["half"] [assumHalf] []
        = .ok (updateA [] "half" ⟨(5 + 1) / 2, 5⟩) ∧
      (2 * ((5 + 1) / 2)) % 5 = 1 ∧ (5 + 1) / 2 < 5 ∧
      ∀ w, w < 5 → (2 * w) % 5 = 1 → w = (5 + 1) / 2) :=
  claim_C5 Policy.fail 5 ["half"] [] (by norm_num) (by decide) (by decide) (by decide)

/-!  ## Tracing-independence lemmas (for C2) -/

theorem projRun_runOps (act : Bool) (field : Nat) (code : List CodeOp) :
    ∀ (a : FormulaAction) (ps : Params),
      projRun (runOps act field code a ps) = pureRun field code ps := by
  induction code with
  | nil => intro a ps; rfl
  | cons op rest ih =>
    intro a ps
    rw [runOps, pureRun]
    cases hm : coerceValue field (op.run ps) with
    | none => rfl
    | some m =>
      dsimp only
      exact ih _ _

theorem add_operation_hist_preserve (a : FormulaAction) (op : CodeOp) (m : Mod) (k : String)
    (h : keyHasHist a.intermediates k) :
    keyHasHist (FormulaAction.add_operation true a op m).intermediates k := by
  obtain ⟨li, hli, hne⟩ := h
  rw [FormulaAction.add_operation]
  simp only [if_true]
  by_cases hk : op.result = k
  · exact ⟨_, by rw [lookupA_updateA, if_pos hk], by simp⟩
  · exact ⟨li, by rw [lookupA_updateA, if_neg hk]; exact hli, hne⟩

theorem add_operation_hist_self (a : FormulaAction) (op : CodeOp) (m : Mod) :
    keyHasHist (FormulaAction.add_operation true a op m).intermediates op.result := by
  rw [FormulaAction.add_operation]
  simp only [if_true]
  exact ⟨_, by rw [lookupA_updateA, if_pos rfl], by simp⟩

theorem runOps_hist (field : Nat) (code : List CodeOp) :
    ∀ (a : FormulaAction) (ps : Params) (a' : FormulaAction) (ps' : Params),
      runOps true field code a ps = .ok (a', ps') →
      (∀ k, keyHasHist a.intermediates k → keyHasHist a'.intermediates k) ∧
      (∀ op ∈ code, keyHasHist a'.intermediates op.result) := by
  induction code with
  | nil =>
    intro a ps a' ps' h
    rw [runOps] at h
    injection h with h'
    injection h' with h1 h2
    subst h1
    exact ⟨fun k hk => hk, fun op hop => absurd hop (List.not_mem_nil op)⟩
  | cons op rest ih =>
    intro a ps a' ps' h
    rw [runOps] at h
    split at h
    · cases h
    · rename_i m hm
      dsimp only at h
      obtain ⟨hpres, hops⟩ := ih _ _ _ _ h
      refine ⟨fun k hk => hpres k (add_operation_hist_preserve a op m k hk), ?_⟩
      intro op2 hop2
      cases hop2 with
      | head => exact hpres _ (add_operation_hist_self a op m)
      | tail _ htl => exact hops op2 htl

theorem bindOutputs_ok (inter : List (String × List OpResult)) :
    ∀ (outs : Params) (acc : List (String × OpResult)),
      (∀ kv ∈ outs, keyHasHist inter kv.1) →
      ∃ res, bindOutputs inter acc outs = .ok res := by
  intro outs
  induction outs with
  | nil => intro acc _; exact ⟨acc, rfl⟩
  | cons kv rest ih =>
    intro acc h
    obtain ⟨k, m0⟩ := kv
    obtain ⟨li, hli, hne⟩ := h (k, m0) (List.mem_cons_self _ _)
    obtain ⟨x, hx⟩ : ∃ x, li.getLast? = some x := by
      cases hgl : li.getLast? with
      | none => exact absurd (List.getLast?_eq_none_iff.mp hgl) hne
      | some x => exact ⟨x, rfl⟩
    rw [bindOutputs, hli]
    dsimp only
    rw [hx]
    exact ih (updateA acc k x) (fun kv2 hkv2 => h kv2 (List.mem_cons_of_mem _ hkv2))

theorem add_result_false (a : FormulaAction) (pt : Point) (outs : Params) :
    FormulaAction.add_result false a pt outs = .ok a := rfl

theorem add_result_true_ok (a : FormulaAction) (pt : Point) (outs : Params)
    (h : ∀ kv ∈ outs, keyHasHist a.intermediates kv.1) :
    ∃ a', FormulaAction.add_result true a pt outs = .ok a' ∧
      a'.intermediates = a.intermediates := by
  obtain ⟨res, hres⟩ := bindOutputs_ok a.intermediates outs a.outputs h
  rw [FormulaAction.add_result]
  simp only [if_true]
  rw [hres]
  exact ⟨_, rfl, rfl⟩

theorem collectSlot_keys (ind : String) :
    ∀ (vs : List String) (ps : Params) (r fr : Params),
      collectSlot vs ind ps = .ok (r, fr) →
      ∀ kv ∈ fr, ∃ v, v ∈ vs ∧ kv.1 = v ++ ind := by
  intro vs
  induction vs with
  | nil =>
    intro ps r fr h kv hkv
    rw [collectSlot] at h
    injection h with h'
    injection h' with h1 h2
    subst h2
    cases hkv
  | cons v tl ih =>
    intro ps r fr h kv hkv
    rw [collectSlot] at h
    split at h
    · cases h
    · rename_i m hm
      split at h
      · cases h
      · rename_i r0 fr0 hrec
        injection h with h'
        injection h' with h1 h2
        subst h2
        cases hkv with
        | head => exact ⟨v, List.mem_cons_self _ _, rfl⟩
        | tail _ htl =>
          obtain ⟨v', hv', heq⟩ := ih ps r0 fr0 hrec kv htl
          exact ⟨v', List.mem_cons_of_mem _ hv', heq⟩

theorem projAssemble_false (cm : CoordinateModel) (outIdx : Nat) :
    ∀ (count i : Nat) (a : FormulaAction) (ps : Params),
      projAssemble (assembleOutputs false cm outIdx i count a ps)
        = pureAssemble cm outIdx i count ps := by
  intro count
  induction count with
  | zero => intro i a ps; rfl
  | succ n ih =>
    intro i a ps
    rw [assembleOutputs, pureAssemble]
    cases hcs : collectSlot cm.vars (Nat.repr (outIdx + i)) ps with
    | error e => rfl
    | ok pair =>
      obtain ⟨r, fr⟩ := pair
      dsimp only
      rw [add_result_false]
      dsimp only
      have hih := ih (i + 1) a ps
      cases hrec : assembleOutputs false cm outIdx (i + 1) n a ps with
      | error ea =>
        obtain ⟨e, a2⟩ := ea
        rw [hrec] at hih
        dsimp only [projAssemble] at hih
        rw [← hih]
        rfl
      | ok pair2 =>
        obtain ⟨a2, pts2⟩ := pair2
        rw [hrec] at hih
        dsimp only [projAssemble] at hih
        rw [← hih]
        rfl

theorem projAssemble_true (cm : CoordinateModel) (outIdx : Nat) :
    ∀ (count i : Nat) (a : FormulaAction) (ps : Params),
      (∀ j, j < count → ∀ v ∈ cm.vars,
        keyHasHist a.intermediates (v ++ Nat.repr (outIdx + (i + j)))) →
      projAssemble (assembleOutputs true cm outIdx i count a ps)
        = pureAssemble cm outIdx i count ps := by
  intro count
  induction count with
  | zero => intro i a ps _; rfl
  | succ n ih =>
    intro i a ps H
    rw [assembleOutputs, pureAssemble]
    cases hcs : collectSlot cm.vars (Nat.repr (outIdx + i)) ps with
    | error e => rfl
    | ok pair =>
      obtain ⟨r, fr⟩ := pair
      dsimp only
      have hkeys : ∀ kv ∈ fr, keyHasHist a.intermediates kv.1 := by
        intro kv hkv
        obtain ⟨v, hv, hkveq⟩ := collectSlot_keys _ cm.vars ps r fr hcs kv hkv
        rw [hkveq]
        have h0 := H 0 (by omega) v hv
        rwa [Nat.add_zero] at h0
      obtain ⟨a', hares, hint⟩ := add_result_true_ok a ⟨cm, r⟩ fr hkeys
      rw [hares]
      dsimp only
      have hih := ih (i + 1) a' ps (by
        intro j hj v hv
        rw [hint]
        have harg : outIdx + (i + 1 + j) = outIdx + (i + (j + 1)) := by omega
        rw [harg]
        exact H (j + 1) (by omega) v hv)
      cases hrec : assembleOutputs true cm outIdx (i + 1) n a' ps with
      | error ea =>
        obtain ⟨e, a2⟩ := ea
        rw [hrec] at hih
        rw [← hih]
        rfl
      | ok pair2 =>
        obtain ⟨a2, pts2⟩ := pair2
        rw [hrec] at hih
        rw [← hih]
        rfl

/-- C2 (amended): for every formula all of whose output coordinate names are
computed by some operation in its code — true of well-formed formulas, whose
outputs are assigned by the operation list — executing under an active
tracing context and under the null context yield identical results: the same
output points on success and the same error otherwise.  Without that
proviso, an active context can raise an internal consistency error (KeyError
in `add_result`) where the null context succeeds (see the counterexample). -/
theorem claim_C2_amended (f : Formula) (pol : Policy) (field : Nat)
    (points : List Point) (params : Params)
    (H : ∀ i, i < f.num_outputs → ∀ v, v ∈ f.coordinate_model.vars →
      ∃ op, op ∈ f.code ∧ op.result = v ++ Nat.repr (efdOutputIndex f + i)) :
    (f.exec true pol field points params).result
      = (f.exec false pol field points params).result := by
  rw [Formula.exec, Formula.exec]
  cases hval : validatePhase pol f field points params with
  | error e => rfl
  | ok ps =>
    dsimp only
    have hrt := projRun_runOps true field f.code ⟨f, ps, points, [], [], []⟩ ps
    have hrf := projRun_runOps false field f.code ⟨f, ps, points, [], [], []⟩ ps
    cases hT : runOps true field f.code ⟨f, ps, points, [], [], []⟩ ps with
    | error ea =>
      obtain ⟨e, aT⟩ := ea
      rw [hT] at hrt
      dsimp only [projRun] at hrt
      cases hF : runOps false field f.code ⟨f, ps, points, [], [], []⟩ ps with
      | error eb =>
        obtain ⟨e2, aF⟩ := eb
        rw [hF] at hrf
        dsimp only [projRun] at hrf
        have he := hrt.trans hrf.symm
        injection he with he'
        dsimp only
        rw [he']
      | ok pF =>
        obtain ⟨aF, psF⟩ := pF
        rw [hF] at hrf
        dsimp only [projRun] at hrf
        have hbad := hrt.trans hrf.symm
        simp at hbad
    | ok pT =>
      obtain ⟨aT, psT⟩ := pT
      rw [hT] at hrt
      dsimp only [projRun] at hrt
      cases hF : runOps false field f.code ⟨f, ps, points, [], [], []⟩ ps with
      | error eb =>
        obtain ⟨e2, aF⟩ := eb
        rw [hF] at hrf
        dsimp only [projRun] at hrf
        have hbad := hrt.trans hrf.symm
        simp at hbad
      | ok pF =>
        obtain ⟨aF, psF⟩ := pF
        rw [hF] at hrf
        dsimp only [projRun] at hrf
        have hps : psT = psF := by
          have h0 := hrt.trans hrf.symm
          injection h0
        subst hps
        dsimp only
        have hhist : ∀ j, j < f.num_outputs → ∀ v ∈ f.coordinate_model.vars,
            keyHasHist aT.intermediates (v ++ Nat.repr (efdOutputIndex f + (0 + j))) := by
          intro j hj v hv
          obtain ⟨op, hop, hres⟩ := H j hj v hv
          have hk := (runOps_hist field f.code _ _ _ _ hT).2 op hop
          rw [hres] at hk
          rwa [Nat.zero_add]
        have hA := projAssemble_true f.coordinate_model (efdOutputIndex f)
          f.num_outputs 0 aT psT hhist
        have hB := projAssemble_false f.coordinate_model (efdOutputIndex f)
          f.num_outputs 0 aF psT
        have hEq := hA.trans hB.symm
        cases hAT : assembleOutputs true f.coordinate_model (efdOutputIndex f)
            0 f.num_outputs aT psT with
        | error ea =>
          obtain ⟨e, a1⟩ := ea
          cases hAF : assembleOutputs false f.coordinate_model (efdOutputIndex f)
              0 f.num_outputs aF psT with
          | error eb =>
            obtain ⟨e2, a2⟩ := eb
            rw [hAT, hAF] at hEq
            dsimp only [projAssemble] at hEq
            injection hEq with he'
            dsimp only
            rw [he']
          | ok pb =>
            obtain ⟨a2, pts2⟩ := pb
            rw [hAT, hAF] at hEq
            dsimp only [projAssemble] at hEq
            simp at hEq
        | ok pa =>
          obtain ⟨a1, pts1⟩ := pa
          cases hAF : assembleOutputs false f.coordinate_model (efdOutputIndex f)
              0 f.num_outputs aF psT with
          | error eb =>
            obtain ⟨e2, a2⟩ := eb
            rw [hAT, hAF] at hEq
            dsimp only [projAssemble] at hEq
            simp at hEq
          | ok pb =>
            obtain ⟨a2, pts2⟩ := pb
            rw [hAT, hAF] at hEq
            dsimp only [projAssemble] at hEq
            injection hEq with he'
            dsimp only
            rw [he']

/-- Counterexample to C2 as stated: a formula whose output coordinate `X3`
comes from a caller-supplied binding rather than an operation succeeds under
the null context but raises a KeyError in `add_result` under an active
context — disabling tracing changes whether Execute raises. -/
theorem claim_C2_counterexample :
    (fCE.exec false Policy.fail 5 [⟨cmW, [("X", ⟨1, 5⟩)]⟩] [("X3", ⟨2, 5⟩)]).result
        = .ok [⟨cmW, [("X", ⟨2, 5⟩)]⟩] ∧
    (fCE.exec true Policy.fail 5 [⟨cmW, [("X", ⟨1, 5⟩)]⟩] [("X3", ⟨2, 5⟩)]).result
        = .error (.keyError "X3") := by
  decide

/-- Witness for the amended C2: the concrete addition formula computes its
only output coordinate `X3` in its code, and the traced and untraced runs
agree. -/
theorem claim_C2_witness :
    (fW.exec true Policy.fail 5 ptsW []).result = (fW.exec false Policy.fail 5 ptsW []).result :=
  claim_C2_amended fW Policy.fail 5 ptsW [] (by decide)

end PyEcsca


